import Mathlib

/-!
A verification development for the grading pipeline of the `metana-pr-reviewer`
backend (`src/backend/controllers/gradingController.js`).  The controller is
embedded shallowly: request bodies become an option-field record (absent or
non-string JSON fields are `none`), the Prisma review table becomes a list of
records, the external effects (git clone, filesystem scan, OpenAI call,
database write, cleanup) are driven by an explicit environment oracle, and
the observable side effects of one invocation are collected in an effects
record.  JavaScript numbers are modelled as rationals; `Math.round` is
round-half-up on rationals.

The cloner module (`cloneRepo`, `cleanupRepo`, `isValidGitHubUrl`) and the AI
helper (`analyzeCodeWithCustomInstructions`) are required by the controller
but their source files are not among the provided sources; they are modelled
from the spec where indicated.
-/

set_option maxRecDepth 8192

namespace Grading

/-- JavaScript `Math.round` on a rational: round half toward positive
infinity, `Math.round(x) = ⌊x + 1/2⌋`. -/
def jsRound (q : ℚ) : ℤ := ⌊q + 1/2⌋

/-- Abstraction of JavaScript `Number.prototype.toFixed(2)` (the `percentage`
field of a summary): the value rounded to two decimal places, kept as a
rational instead of a decimal string. -/
def toFixed2 (q : ℚ) : ℚ := (jsRound (q * 100) : ℚ) / 100

/-- The characters after the last dot of a character list, or `none` when it
has no dot. -/
def afterLastDot : List Char → Option (List Char)
  | [] => none
  | c :: rest =>
      match afterLastDot rest with
      | some e => some e
      | none => if c = '.' then some rest else none

/-- Node's `path.extname(name)`: the suffix of `name` from its last dot, or
`""` when `name` has no dot or its only dot is the leading character
(so `extname ".gitignore" = ""`, `extname "a.js" = ".js"`,
`extname "foo." = "."`; directory entry names never being `"."` or `".."`,
their special-casing is immaterial). -/
def extname (name : String) : String :=
  match name.toList with
  | [] => ""
  | _ :: rest =>
      match afterLastDot rest with
      | some e => "." ++ String.mk e
      | none => ""

/-- Node's `path.join(dir, name)` for the simple one-segment case used by
the scanner. -/
def pathJoin (dir name : String) : String := dir ++ "/" ++ name

/-- The extension allow-list of `findCodeFiles`
(gradingController.js line 263). -/
def codeExtensions : List String :=
  [".js", ".jsx", ".ts", ".tsx", ".py", ".java", ".sol", ".rs", ".go"]

/-- The directory exclusion set of `findCodeFiles`
(gradingController.js line 264). -/
def ignoreDirs : List String :=
  ["node_modules", ".git", "dist", "build", "__pycache__", "target"]

/-- A directory tree as returned by `fs.readdir(..., { withFileTypes: true })`:
entries in directory order, each a file or a subdirectory.  File contents are
irrelevant to the scanner itself and are not modelled. -/
inductive FsEntry where
  | file (name : String)
  | dir (name : String) (children : List FsEntry)

mutual
/-- The body of the loop inside `scan(dir)` of `findCodeFiles`
(gradingController.js lines 271-281): a directory whose name is not in
`ignoreDirs` is descended into, an ignored directory contributes nothing, a
file is selected when its extension is in `codeExtensions`. -/
def scanEntry (dir : String) : FsEntry → List String
  | .file name =>
      if codeExtensions.contains (extname name) then [pathJoin dir name] else []
  | .dir name children =>
      if ignoreDirs.contains name then [] else scanDir (pathJoin dir name) children

/-- The recursive walk `scan(dir)` inside `findCodeFiles`
(gradingController.js lines 268-283): entries are visited in order,
accumulating each entry's contribution. -/
def scanDir (dir : String) : List FsEntry → List String
  | [] => []
  | e :: rest => scanEntry dir e ++ scanDir dir rest
end

/-- `findCodeFiles(repoPath)` (gradingController.js lines 259-287).  The
filesystem is passed explicitly: `tree` is the entry list of the workspace
root. -/
def findCodeFiles (repoPath : String) (tree : List FsEntry) : List String :=
  scanDir repoPath tree

/-- `getGradingStatus(score, maxScore)` (gradingController.js lines 317-325). -/
def getGradingStatus (score maxScore : ℚ) : String :=
  let percentage := score / maxScore * 100
  if percentage ≥ 90 then "Excellent"
  else if percentage ≥ 80 then "Good"
  else if percentage ≥ 70 then "Satisfactory"
  else if percentage ≥ 60 then "Needs Improvement"
  else "Unsatisfactory"

/-- Split a character list on a separator character. -/
def splitOnChar (sep : Char) : List Char → List (List Char)
  | [] => [[]]
  | c :: rest =>
      if c = sep then [] :: splitOnChar sep rest
      else
        match splitOnChar sep rest with
        | [] => [[c]]
        | h :: t => (c :: h) :: t

/-- Modelled from the spec: the cloner module is not among the provided
sources; per §4.2 `isValidRepositoryReference` is a pure syntactic check that
the string matches the hosting provider's URL shape (an https GitHub URL
naming a nonempty owner and a nonempty repository). -/
def isValidGitHubUrl (s : String) : Bool :=
  let pre := "https://github.com/".toList
  let cs := s.toList
  if pre.isPrefixOf cs then
    match splitOnChar '/' (cs.drop pre.length) with
    | [owner, repo] => !owner.isEmpty && !repo.isEmpty
    | _ => false
  else false

/-- Modelled from the spec: the cloner module is not among the provided
sources; per §4.2 the workspace destination is a unique path derived from the
submitter label plus a uniqueness token. -/
def mkWorkspacePath (submitter : String) (token : Nat) : String :=
  "/tmp/grading-workspaces/" ++ submitter ++ "-" ++ toString token

/-- The shape parsed from the AI service response by the scoring adapter:
`{score, feedback, passed, errors}` (aiHelper is not among the provided
sources; shape per spec §4.4 and its uses in `performCustomGrading`). -/
structure AIRaw where
  score : ℚ
  feedback : String
  passed : List String
  errors : List String
  deriving DecidableEq

/-- The `codeQuality` block of a grading result
(gradingController.js lines 233-237). -/
structure CodeQuality where
  score : ℚ
  maxScore : ℚ
  feedback : String
  deriving DecidableEq

/-- The `completeness` block of a grading result
(gradingController.js lines 238-243). -/
structure Completeness where
  score : ℤ
  maxScore : ℚ
  passed : List String
  errors : List String
  deriving DecidableEq

/-- The object returned by `performCustomGrading`
(gradingController.js lines 229-246). -/
structure GradingResults where
  moduleName : String
  totalScore : ℚ
  maxTotalScore : ℚ
  codeQuality : CodeQuality
  completeness : Completeness
  filesAnalyzed : Nat
  customCriteria : String
  deriving DecidableEq

/-- The `summary` object (gradingController.js lines 126-131).  `percentage`
is kept as a rounded rational rather than the `toFixed(2)` string. -/
structure Summary where
  totalScore : ℚ
  maxScore : ℚ
  percentage : ℚ
  status : String
  deriving DecidableEq

/-- The parse of a stored `reviewContent` JSON string
(gradingController.js lines 140-144): `{feedback, results, summary}`. -/
structure ReviewContent where
  feedback : String
  results : GradingResults
  summary : Summary
  deriving DecidableEq

/-- A row of the Prisma `review` table (spec §6 persisted record shape).
The serialized `reviewContent` string is modelled by its parse image:
`some c` stands for a string on which `JSON.parse` succeeds with `c`, and
`none` for a string that is not valid JSON (the only operation the
controller applies to it is `JSON.parse`). -/
structure Review where
  id : Nat
  repoName : String
  branchName : String
  studentName : Option String
  reviewContent : Option ReviewContent
  score : String
  status : String
  createdAt : Nat
  deriving DecidableEq

/-- Key match of the Prisma `where` clause
(gradingController.js lines 57-61). -/
def matchesKey (repo branch : String) (student : Option String) (r : Review) : Bool :=
  r.repoName = repo && r.branchName = branch && r.studentName = student

/-- The more recently created of a record and an optional record (records
compare by `createdAt`; the first argument wins ties). -/
def newer (a : Review) : Option Review → Review
  | none => a
  | some b => if b.createdAt > a.createdAt then b else a

/-- Select the match with the greatest `createdAt` (the first row under
`orderBy: { createdAt: 'desc' }`), earliest-in-list winning ties. -/
def pickLatest : List Review → Option Review
  | [] => none
  | r :: rest => some (newer r (pickLatest rest))

/-- `prisma.review.findFirst({where, orderBy: {createdAt: 'desc'}})`
(gradingController.js lines 63-68). -/
def findLatest (store : List Review) (repo branch : String)
    (student : Option String) : Option Review :=
  pickLatest (store.filter (matchesKey repo branch student))

/-- The JSON request body of `POST /api/grade` (gradingController.js line 30):
each field is `none` when absent or not a string, `some s` when the string
`s`. -/
structure Req where
  repoName : Option String
  branchName : Option String
  studentName : Option String
  customInstructions : Option String
  deriving DecidableEq

/-- The JavaScript test `!x || typeof x !== 'string'` on an optional string
field, returning the validated string: `none` for absent, non-string or
empty (falsy) values.  The same computation gives `studentName || null`
normalization, since the only falsy string is `""`. -/
def validStr : Option String → Option String
  | none => none
  | some s => if s = "" then none else some s

/-- JavaScript `String.prototype.trim()`: strip leading and trailing
whitespace (the marginal differences between the JS and Unicode whitespace
sets are immaterial here). -/
def jsTrim (s : String) : String :=
  String.mk (((s.toList.dropWhile Char.isWhitespace).reverse.dropWhile
    Char.isWhitespace).reverse)

/-- The miss-path check on `customInstructions`
(gradingController.js line 101): present, a string and not whitespace-only. -/
def validInstructions : Option String → Bool
  | none => false
  | some s => if s = "" then false else if jsTrim s = "" then false else true

/-- The environment oracle driving one invocation's external effects: whether
`cloneRepo` succeeds, the cloned workspace's directory tree, the AI-call
outcome (`none` is a scoring failure: transport error, rate limit or
unparseable response), whether `prisma.review.create` succeeds, and whether
`cleanupRepo` succeeds. -/
structure Env where
  cloneOk : Bool
  tree : List FsEntry
  ai : Option AIRaw
  dbWriteOk : Bool
  cleanupOk : Bool

/-- Mutable state crossing invocations: the review table (newest first), the
next record id, a clock supplying `createdAt` timestamps and workspace
uniqueness tokens, and the set of live workspace paths on disk. -/
structure St where
  store : List Review
  nextId : Nat
  tick : Nat
  liveWorkspaces : List String
  deriving DecidableEq

/-- Observable side effects of one invocation: submitter labels passed to
`cloneRepo`, number of AI scoring calls, number of attempted store writes,
workspace paths created, and paths passed to `cleanupRepo`. -/
structure Effects where
  cloneCalls : List String
  scoringCalls : Nat
  storeWrites : Nat
  workspacesCreated : List String
  cleanupAttempts : List String
  deriving DecidableEq

/-- The empty effects record. -/
def noEff : Effects := ⟨[], 0, 0, [], []⟩

/-- The HTTP responses the controller can produce: a 400 with an error
message, a 200 from cache (`source: 'database'`), a 200 from a fresh AI call
(`source: 'openai'`), or a 500 (`success: false, error: 'Grading failed'`)
carrying the thrown error's message. -/
inductive Resp where
  | badRequest (err : String)
  | cacheHit (student branch repo : String) (results : GradingResults)
      (summary : Summary) (reviewId : Nat) (createdAt : Nat)
  | freshOk (student branch repo : String) (results : GradingResults)
      (summary : Summary) (reviewId : Nat) (createdAt : Nat)
  | serverError (message : String)
  deriving DecidableEq

/-- The complete observable outcome of one `gradeSubmission` invocation. -/
structure Outcome where
  resp : Resp
  st : St
  eff : Effects
  deriving DecidableEq

/-- Message of the error thrown by `JSON.parse` on a stored `reviewContent`
that is not valid JSON (the exact JavaScript message text is
input-dependent; it is abstracted to a fixed string). -/
def jsonParseErrorMessage : String := "Unexpected token in JSON"

/-- Modelled from the spec: message of the `AcquisitionError` thrown by
`cloneRepo` (cloner module not among the provided sources, behavior per
§4.2). -/
def acquisitionErrorMessage : String := "Failed to clone repository"

/-- Message of the scoring-adapter failure (`ScoringError`, spec §4.4; the
aiHelper module is not among the provided sources). -/
def scoringErrorMessage : String := "AI scoring failed"

/-- Message of the error thrown by a failing `prisma.review.create`
(`PersistenceError`, abstracted to a fixed string). -/
def persistenceErrorMessage : String := "Database write failed"

/-- The result of `performCustomGrading` together with the number of AI
scoring calls it performed. -/
structure PCGResult where
  out : Except String GradingResults
  scoringCalls : Nat

/-- `performCustomGrading(repoPath, customInstructions, branchName)`
(gradingController.js lines 202-252): scan the workspace, fail when no code
files were selected, otherwise call the AI helper and assemble the results
object.  The corpus concatenation (lines 216-220) only feeds the AI call and
is not reflected in the abstracted AI outcome. -/
def performCustomGrading (env : Env) (repoPath customInstructions branchName : String) :
    PCGResult :=
  let codeFiles := findCodeFiles repoPath env.tree
  if codeFiles.length = 0 then
    ⟨.error "No code files found in the repository", 0⟩
  else
    match env.ai with
    | none => ⟨.error scoringErrorMessage, 1⟩
    | some aiResult =>
        ⟨.ok
          { moduleName := "Branch: " ++ branchName
            totalScore := aiResult.score
            maxTotalScore := 100
            codeQuality :=
              { score := aiResult.score, maxScore := 100, feedback := aiResult.feedback }
            completeness :=
              { score := if aiResult.score > 60 then 40 else jsRound (aiResult.score * (2/5))
                maxScore := 40
                passed := aiResult.passed
                errors := aiResult.errors }
            filesAnalyzed := codeFiles.length
            customCriteria := customInstructions.take 200 ++ "..." }, 1⟩

/-- The `summary` computed on the miss path
(gradingController.js lines 126-131). -/
def mkSummary (gr : GradingResults) : Summary :=
  { totalScore := gr.totalScore
    maxScore := gr.maxTotalScore
    percentage := toFixed2 (gr.totalScore / gr.maxTotalScore * 100)
    status := getGradingStatus gr.totalScore gr.maxTotalScore }

/-- The record written by `prisma.review.create`
(gradingController.js lines 135-148); `id` and `createdAt` are assigned by
the store (modelled by the state's counter and clock). -/
def mkSavedReview (repo branch : String) (student : Option String)
    (gr : GradingResults) (id createdAt : Nat) : Review :=
  { id := id
    repoName := repo
    branchName := branch
    studentName := student
    reviewContent := some
      { feedback :=
          if gr.codeQuality.feedback = "" then "No feedback available"
          else gr.codeQuality.feedback
        results := gr
        summary := mkSummary gr }
    score := toString gr.totalScore ++ "/" ++ toString gr.maxTotalScore
    status := "COMPLETED"
    createdAt := createdAt }

/-- The `finally` block (gradingController.js lines 181-192): when a
workspace was cloned, attempt `cleanupRepo`; a cleanup failure is logged and
swallowed, never altering the response. -/
def runCleanup (env : Env) (clonedPath : Option String) (resp : Resp) (st : St)
    (eff : Effects) : Outcome :=
  match clonedPath with
  | none => ⟨resp, st, eff⟩
  | some p =>
      ⟨resp,
       if env.cleanupOk then
         { st with liveWorkspaces := st.liveWorkspaces.filter (· ≠ p) }
       else st,
       { eff with cleanupAttempts := eff.cleanupAttempts ++ [p] }⟩

/-- `gradeSubmission(req, res)` (gradingController.js lines 23-193, the
check-first version): validate `repoName` and `branchName`, look up the
cache key `(repoName, branchName, studentName || null)`, on a hit parse and
return the stored record, on a miss validate `customInstructions` and the
GitHub URL, clone, grade, persist and respond; always clean up a cloned
workspace. -/
def gradeSubmission (env : Env) (req : Req) (st : St) : Outcome :=
  match validStr req.repoName with
  | none => runCleanup env none (.badRequest "Invalid or missing repoName") st noEff
  | some repoName =>
  match validStr req.branchName with
  | none =>
      runCleanup env none (.badRequest "Invalid or missing branchName (Module)") st noEff
  | some branchName =>
  let studentKey := validStr req.studentName
  match findLatest st.store repoName branchName studentKey with
  | some existingReview =>
      match existingReview.reviewContent with
      | none => runCleanup env none (.serverError jsonParseErrorMessage) st noEff
      | some parsedContent =>
          runCleanup env none
            (.cacheHit (existingReview.studentName.getD "Unknown")
              existingReview.branchName existingReview.repoName
              parsedContent.results parsedContent.summary
              existingReview.id existingReview.createdAt) st noEff
  | none =>
  if !validInstructions req.customInstructions then
    runCleanup env none (.badRequest "customInstructions required for new grading") st noEff
  else if !isValidGitHubUrl repoName then
    runCleanup env none (.badRequest "Invalid GitHub URL format") st noEff
  else
  let submitterName := studentKey.getD "submission"
  if !env.cloneOk then
    runCleanup env none (.serverError acquisitionErrorMessage) st
      { noEff with cloneCalls := [submitterName] }
  else
  let clonedPath := mkWorkspacePath submitterName st.tick
  let st1 := { st with liveWorkspaces := st.liveWorkspaces ++ [clonedPath] }
  let pcg := performCustomGrading env clonedPath (req.customInstructions.getD "") branchName
  let eff1 : Effects :=
    { cloneCalls := [submitterName], scoringCalls := pcg.scoringCalls, storeWrites := 0,
      workspacesCreated := [clonedPath], cleanupAttempts := [] }
  match pcg.out with
  | .error msg => runCleanup env (some clonedPath) (.serverError msg) st1 eff1
  | .ok gradingResults =>
      if !env.dbWriteOk then
        runCleanup env (some clonedPath) (.serverError persistenceErrorMessage) st1
          { eff1 with storeWrites := 1 }
      else
        let savedReview :=
          mkSavedReview repoName branchName studentKey gradingResults st.nextId st.tick
        let st2 :=
          { st1 with
            store := savedReview :: st1.store
            nextId := st.nextId + 1
            tick := st.tick + 1 }
        runCleanup env (some clonedPath)
          (.freshOk (studentKey.getD "Unknown") branchName repoName gradingResults
            (mkSummary gradingResults) savedReview.id savedReview.createdAt)
          st2 { eff1 with storeWrites := 1 }

/-- Whether a response is the 400 validation failure (`success: false` with
an error string, spec's `ValidationError`). -/
def isBadRequest : Resp → Bool
  | .badRequest _ => true
  | _ => false

/-- The circumstances in which `gradeSubmission` answers 400: a
missing/non-string/empty `repoName` or `branchName`, or — only on a cache
miss — missing/blank `customInstructions` or a `repoName` failing the
GitHub-URL shape check. -/
def validationCond (req : Req) (st : St) : Prop :=
  validStr req.repoName = none ∨
  (∃ repo, validStr req.repoName = some repo ∧
    (validStr req.branchName = none ∨
     (∃ branch, validStr req.branchName = some branch ∧
       findLatest st.store repo branch (validStr req.studentName) = none ∧
       (validInstructions req.customInstructions = false ∨
        isValidGitHubUrl repo = false))))

/-- Spec-side selection predicate for the scanner, following the spec's
words (§4.3): a path is selected exactly when it names a file reachable
from the root without entering any directory whose name is in the fixed
exclusion set, and whose extension is in the fixed allow-list. -/
inductive SpecSelected : String → List FsEntry → String → Prop where
  | file {dir : String} {entries : List FsEntry} {name : String} :
      FsEntry.file name ∈ entries → extname name ∈ codeExtensions →
      SpecSelected dir entries (pathJoin dir name)
  | sub {dir : String} {entries : List FsEntry} {d : String}
      {children : List FsEntry} {p : String} :
      FsEntry.dir d children ∈ entries → d ∉ ignoreDirs →
      SpecSelected (pathJoin dir d) children p → SpecSelected dir entries p

/-- A concrete workspace tree: one selected file, one excluded directory
containing a source file, one excluded-extension file. -/
def treeW : List FsEntry :=
  [.file "a.js", .dir "node_modules" [.file "b.js"], .file "c.md"]

/-- A concrete environment where every external step succeeds. -/
def envW : Env := ⟨true, treeW, some ⟨85, "good work", ["p1"], []⟩, true, true⟩

/-- A concrete well-formed grading request. -/
def reqW : Req :=
  ⟨some "https://github.com/org/repo", some "module-02", some "alice",
   some "grade for correctness"⟩

/-- The empty initial state. -/
def stW : St := ⟨[], 0, 0, []⟩

/-- A stored record whose serialized `reviewContent` is not valid JSON. -/
def badRecW : Review :=
  ⟨7, "https://github.com/org/repo", "module-02", some "alice", none,
   "85/100", "COMPLETED", 5⟩

/-- A state whose store holds only the corrupt record. -/
def stBad : St := ⟨[badRecW], 10, 9, []⟩

/-- A concrete environment whose workspace holds no selectable code file. -/
def envEmptyW : Env := ⟨true, [.file "c.md"], some ⟨85, "good work", [], []⟩, true, true⟩

/-- A concrete request whose studentName is the empty string. -/
def reqEmptyStu : Req :=
  ⟨some "https://github.com/org/repo", some "module-02", some "",
   some "grade for correctness"⟩

/-- The grading results assembled for the workspace of `envW` when the AI
returns score 85. -/
def grW : GradingResults :=
  { moduleName := "Branch: module-02"
    totalScore := 85
    maxTotalScore := 100
    codeQuality := ⟨85, 100, "good work"⟩
    completeness := ⟨40, 40, ["p1"], []⟩
    filesAnalyzed := 1
    customCriteria := "grade for correctness..." }

/-! ## Helper lemmas -/

theorem pickLatest_eq_none_iff {xs : List Review} : pickLatest xs = none ↔ xs = [] := by
  cases xs <;> simp [pickLatest]

theorem pickLatest_mem {xs : List Review} {r : Review}
    (h : pickLatest xs = some r) : r ∈ xs := by
  induction xs generalizing r with
  | nil => simp [pickLatest] at h
  | cons a rest ih =>
      rw [pickLatest, Option.some.injEq] at h
      subst h
      cases hrest : pickLatest rest with
      | none => simp [newer, hrest]
      | some b =>
          simp only [newer]
          split
          · exact List.mem_cons_of_mem a (ih hrest)
          · exact List.mem_cons_self a rest

theorem pickLatest_max {xs : List Review} {r : Review}
    (h : pickLatest xs = some r) :
    ∀ x ∈ xs, x.createdAt ≤ r.createdAt := by
  induction xs generalizing r with
  | nil => simp
  | cons a rest ih =>
      intro x hx
      rw [pickLatest, Option.some.injEq] at h
      subst h
      cases hrest : pickLatest rest with
      | none =>
          rcases List.mem_cons.mp hx with hxa | hxr
          · simp [newer, hxa]
          · rw [pickLatest_eq_none_iff.mp hrest] at hxr
            simp at hxr
      | some b =>
          have hb := ih hrest
          simp only [newer]
          rcases List.mem_cons.mp hx with hxa | hxr
          · subst hxa
            split
            · omega
            · exact le_rfl
          · have hxb := hb x hxr
            split
            · exact hxb
            · omega

theorem findLatest_eq_none_iff {store : List Review} {repo branch : String}
    {student : Option String} :
    findLatest store repo branch student = none ↔
      store.filter (matchesKey repo branch student) = [] := by
  unfold findLatest; exact pickLatest_eq_none_iff

theorem findLatest_spec {store : List Review} {repo branch : String}
    {student : Option String} {r : Review}
    (h : findLatest store repo branch student = some r) :
    matchesKey repo branch student r = true ∧ r ∈ store ∧
      ∀ x ∈ store, matchesKey repo branch student x = true →
        x.createdAt ≤ r.createdAt := by
  unfold findLatest at h
  have hmem := pickLatest_mem h
  have hf := List.mem_filter.mp hmem
  refine ⟨hf.2, hf.1, fun x hx hkx => ?_⟩
  exact pickLatest_max h x (List.mem_filter.mpr ⟨hx, hkx⟩)

theorem findLatest_cons_self {store : List Review} {repo branch : String}
    {student : Option String} {r : Review}
    (hmiss : findLatest store repo branch student = none)
    (hr : matchesKey repo branch student r = true) :
    findLatest (r :: store) repo branch student = some r := by
  unfold findLatest
  rw [List.filter_cons_of_pos hr, findLatest_eq_none_iff.mp hmiss]
  rfl

theorem pcg_ok_scoringCalls {env : Env} {p i b : String} {gr : GradingResults}
    (h : (performCustomGrading env p i b).out = .ok gr) :
    (performCustomGrading env p i b).scoringCalls = 1 := by
  unfold performCustomGrading at h ⊢
  by_cases hlen : (findCodeFiles p env.tree).length = 0
  · simp [hlen] at h
  · cases hai : env.ai with
    | none => simp [hlen, hai] at h
    | some a => simp [hlen, hai]

theorem gradeSubmission_hit (env : Env) (req : Req) (st : St)
    {repo branch : String} {r : Review} {c : ReviewContent}
    (hrepo : validStr req.repoName = some repo)
    (hbranch : validStr req.branchName = some branch)
    (hhit : findLatest st.store repo branch (validStr req.studentName) = some r)
    (hc : r.reviewContent = some c) :
    gradeSubmission env req st =
      ⟨.cacheHit (r.studentName.getD "Unknown") r.branchName r.repoName
         c.results c.summary r.id r.createdAt, st, noEff⟩ := by
  simp only [gradeSubmission, hrepo, hbranch, hhit, hc, runCleanup]

theorem gradeSubmission_parse_fail (env : Env) (req : Req) (st : St)
    {repo branch : String} {r : Review}
    (hrepo : validStr req.repoName = some repo)
    (hbranch : validStr req.branchName = some branch)
    (hhit : findLatest st.store repo branch (validStr req.studentName) = some r)
    (hc : r.reviewContent = none) :
    gradeSubmission env req st = ⟨.serverError jsonParseErrorMessage, st, noEff⟩ := by
  simp only [gradeSubmission, hrepo, hbranch, hhit, hc, runCleanup]

theorem gradeSubmission_miss_success (env : Env) (req : Req) (st : St)
    {repo branch : String} {gr : GradingResults}
    (hrepo : validStr req.repoName = some repo)
    (hbranch : validStr req.branchName = some branch)
    (hmiss : findLatest st.store repo branch (validStr req.studentName) = none)
    (hinstr : validInstructions req.customInstructions = true)
    (hurl : isValidGitHubUrl repo = true)
    (hclone : env.cloneOk = true)
    (hpcg : (performCustomGrading env
        (mkWorkspacePath ((validStr req.studentName).getD "submission") st.tick)
        (req.customInstructions.getD "") branch).out = .ok gr)
    (hdb : env.dbWriteOk = true) :
    gradeSubmission env req st =
      runCleanup env
        (some (mkWorkspacePath ((validStr req.studentName).getD "submission") st.tick))
        (.freshOk ((validStr req.studentName).getD "Unknown") branch repo gr
          (mkSummary gr) st.nextId st.tick)
        { store := mkSavedReview repo branch (validStr req.studentName) gr
              st.nextId st.tick :: st.store
          nextId := st.nextId + 1
          tick := st.tick + 1
          liveWorkspaces := st.liveWorkspaces ++
            [mkWorkspacePath ((validStr req.studentName).getD "submission") st.tick] }
        { cloneCalls := [(validStr req.studentName).getD "submission"]
          scoringCalls := 1
          storeWrites := 1
          workspacesCreated :=
            [mkWorkspacePath ((validStr req.studentName).getD "submission") st.tick]
          cleanupAttempts := [] } := by
  simp only [gradeSubmission, hrepo, hbranch, hmiss, hinstr, hurl, hclone, hdb,
    Bool.not_true, Bool.false_eq_true, if_false, hpcg, pcg_ok_scoringCalls hpcg,
    mkSavedReview]

theorem runCleanup_resp (env : Env) (cp : Option String) (resp : Resp) (st : St)
    (eff : Effects) : (runCleanup env cp resp st eff).resp = resp := by
  cases cp with
  | none => rfl
  | some p => rfl

theorem runCleanup_eff (env : Env) (cp : Option String) (resp : Resp) (st : St)
    (eff : Effects) :
    (runCleanup env cp resp st eff).eff =
      { eff with cleanupAttempts := eff.cleanupAttempts ++ cp.toList } := by
  cases cp with
  | none => simp [runCleanup, Option.toList]
  | some p => simp [runCleanup, Option.toList]

theorem runCleanup_store (env : Env) (cp : Option String) (resp : Resp) (st : St)
    (eff : Effects) : (runCleanup env cp resp st eff).st.store = st.store := by
  cases cp with
  | none => rfl
  | some p => simp only [runCleanup]; split <;> rfl

theorem specSelected_mono {dir : String} {entries entries' : List FsEntry} {p : String}
    (hsub : ∀ e ∈ entries, e ∈ entries') (h : SpecSelected dir entries p) :
    SpecSelected dir entries' p := by
  cases h with
  | file hmem hext => exact .file (hsub _ hmem) hext
  | sub hmem hnot hrec => exact .sub (hsub _ hmem) hnot hrec

theorem file_mem_scanDir {dir name : String} {entries : List FsEntry}
    (hmem : FsEntry.file name ∈ entries)
    (hext : codeExtensions.contains (extname name) = true) :
    pathJoin dir name ∈ scanDir dir entries := by
  induction entries with
  | nil => simp at hmem
  | cons e rest ih =>
      rw [scanDir]
      rcases List.mem_cons.mp hmem with he | hrest
      · subst he
        refine List.mem_append_left _ ?_
        rw [scanEntry, if_pos hext]
        exact List.mem_singleton_self _
      · exact List.mem_append_right _ (ih hrest)

theorem dir_mem_scanDir {dir d p : String} {children entries : List FsEntry}
    (hmem : FsEntry.dir d children ∈ entries)
    (hd : ignoreDirs.contains d = false)
    (hp : p ∈ scanDir (pathJoin dir d) children) :
    p ∈ scanDir dir entries := by
  induction entries with
  | nil => simp at hmem
  | cons e rest ih =>
      rw [scanDir]
      rcases List.mem_cons.mp hmem with he | hrest
      · subst he
        refine List.mem_append_left _ ?_
        rw [scanEntry, if_neg (by simpa using hd)]
        exact hp
      · exact List.mem_append_right _ (ih hrest)

theorem mem_scanDir_of_spec {dir : String} {entries : List FsEntry} {p : String}
    (h : SpecSelected dir entries p) : p ∈ scanDir dir entries := by
  induction h with
  | file hmem hext => exact file_mem_scanDir hmem (by simpa using hext)
  | sub hmem hnot _ ih => exact dir_mem_scanDir hmem (by simpa using hnot) ih

mutual

theorem spec_of_mem_scanEntry (dir : String) (e : FsEntry) (p : String)
    (h : p ∈ scanEntry dir e) : SpecSelected dir [e] p := by
  cases e with
  | file name =>
      rw [scanEntry] at h
      by_cases hext : codeExtensions.contains (extname name) = true
      · rw [if_pos hext] at h
        have hp := List.mem_singleton.mp h
        subst hp
        exact .file (List.mem_singleton_self _) (by simpa using hext)
      · rw [if_neg hext] at h
        simp at h
  | dir name children =>
      rw [scanEntry] at h
      by_cases hig : ignoreDirs.contains name = true
      · rw [if_pos hig] at h
        simp at h
      · rw [if_neg hig] at h
        exact .sub (List.mem_singleton_self _) (by simpa using hig)
          (spec_of_mem_scanDir (pathJoin dir name) children p h)

theorem spec_of_mem_scanDir (dir : String) (entries : List FsEntry) (p : String)
    (h : p ∈ scanDir dir entries) : SpecSelected dir entries p := by
  cases entries with
  | nil =>
      rw [scanDir] at h
      simp at h
  | cons e rest =>
      rw [scanDir] at h
      rcases List.mem_append.mp h with h1 | h2
      · refine specSelected_mono (fun x hx => ?_) (spec_of_mem_scanEntry dir e p h1)
        have := List.mem_singleton.mp hx
        subst this
        exact List.mem_cons_self _ _
      · exact specSelected_mono (fun x hx => List.mem_cons_of_mem _ hx)
          (spec_of_mem_scanDir dir rest p h2)

end

theorem gradeSubmission_shape (env : Env) (req : Req) (st : St) :
    ∃ (cp : Option String) (resp : Resp) (st1 : St) (eff : Effects),
      gradeSubmission env req st = runCleanup env cp resp st1 eff ∧
      eff.workspacesCreated = cp.toList ∧ eff.cleanupAttempts = [] := by
  unfold gradeSubmission
  dsimp only
  repeat' split
  all_goals exact ⟨_, _, _, _, rfl, rfl, rfl⟩

theorem performCustomGrading_cleanupOk (env : Env) (b : Bool) (p i br : String) :
    performCustomGrading { env with cleanupOk := b } p i br
      = performCustomGrading env p i br := rfl

theorem gradeSubmission_cleanupOk_irrelevant (env : Env) (req : Req) (st : St) (b : Bool) :
    (gradeSubmission { env with cleanupOk := b } req st).resp
      = (gradeSubmission env req st).resp ∧
    (gradeSubmission { env with cleanupOk := b } req st).eff
      = (gradeSubmission env req st).eff := by
  have hc : ({ env with cleanupOk := b } : Env).cloneOk = env.cloneOk := rfl
  have hd : ({ env with cleanupOk := b } : Env).dbWriteOk = env.dbWriteOk := rfl
  constructor <;>
    · unfold gradeSubmission
      simp only [performCustomGrading_cleanupOk, hc, hd]
      repeat' split
      all_goals first | rfl | simp [runCleanup_resp, runCleanup_eff]

/-! ## Claim theorems -/

/-- C6: the scan over a workspace never descends into a directory whose name
is in the fixed exclusion set, includes a file exactly when its extension is
in the fixed allow-list, and returns selected files in the deterministic
directory-traversal order, so two scans of an unmodified workspace return
the identical ordered sequence. -/
theorem scanner_selection_characterization :
    (∀ (dir : String) (entries : List FsEntry) (p : String),
        p ∈ scanDir dir entries ↔ SpecSelected dir entries p) ∧
    ignoreDirs = ["node_modules", ".git", "dist", "build", "__pycache__", "target"] ∧
    codeExtensions = [".js", ".jsx", ".ts", ".tsx", ".py", ".java", ".sol", ".rs", ".go"] ∧
    (∀ (repoPath : String) (tree : List FsEntry),
        findCodeFiles repoPath tree = findCodeFiles repoPath tree) :=
  ⟨fun dir entries p => ⟨spec_of_mem_scanDir dir entries p, mem_scanDir_of_spec⟩,
   rfl, rfl, fun _ _ => rfl⟩

/-- C5: the status-banding function is pure and, for every score and positive
maxScore with percentage = score/maxScore*100, returns exactly "Excellent"
when percentage ≥ 90, "Good" on [80,90), "Satisfactory" on [70,80),
"Needs Improvement" on [60,70) and "Unsatisfactory" below 60; at the exact
boundaries 90, 80, 70, 60 the higher band applies. -/
theorem grading_status_banding (score maxScore : ℚ) (h : 0 < maxScore) :
    (90 ≤ score / maxScore * 100 → getGradingStatus score maxScore = "Excellent") ∧
    (80 ≤ score / maxScore * 100 → score / maxScore * 100 < 90 →
      getGradingStatus score maxScore = "Good") ∧
    (70 ≤ score / maxScore * 100 → score / maxScore * 100 < 80 →
      getGradingStatus score maxScore = "Satisfactory") ∧
    (60 ≤ score / maxScore * 100 → score / maxScore * 100 < 70 →
      getGradingStatus score maxScore = "Needs Improvement") ∧
    (score / maxScore * 100 < 60 →
      getGradingStatus score maxScore = "Unsatisfactory") := by
  unfold getGradingStatus
  dsimp only
  refine ⟨?_, ?_, ?_, ?_, ?_⟩ <;> intros <;> split_ifs <;> first | rfl | linarith

/-- Witness for C5: concrete boundary evaluations through the theorem. -/
theorem grading_status_banding_witness :
    getGradingStatus 90 100 = "Excellent" ∧ getGradingStatus 60 100 = "Needs Improvement" :=
  ⟨(grading_status_banding 90 100 (by norm_num)).1 (by norm_num),
   (grading_status_banding 60 100 (by norm_num)).2.2.2.1 (by norm_num) (by norm_num)⟩

/-- C8: the completeness sub-score is a pure function of the score returned
by the scoring service — 40 when score > 60, otherwise
min(40, round(score·0.4)) — with maxScore fixed at 40, and exactly one
scoring call is involved. -/
theorem completeness_subscore_pure (env : Env) (p instrText branch : String) (a : AIRaw)
    (hai : env.ai = some a) (hfiles : findCodeFiles p env.tree ≠ []) :
    ∃ gr : GradingResults,
      (performCustomGrading env p instrText branch).out = .ok gr ∧
      gr.completeness.score =
        (if a.score > 60 then (40 : ℤ) else min 40 (jsRound (a.score * (2/5)))) ∧
      gr.completeness.maxScore = 40 ∧
      (performCustomGrading env p instrText branch).scoringCalls = 1 := by
  have hlen : ¬ (findCodeFiles p env.tree).length = 0 := by
    simpa [List.length_eq_zero] using hfiles
  have hpcg : performCustomGrading env p instrText branch =
      ⟨.ok
        { moduleName := "Branch: " ++ branch
          totalScore := a.score
          maxTotalScore := 100
          codeQuality := ⟨a.score, 100, a.feedback⟩
          completeness :=
            ⟨(if a.score > 60 then 40 else jsRound (a.score * (2/5))), 40,
             a.passed, a.errors⟩
          filesAnalyzed := (findCodeFiles p env.tree).length
          customCriteria := instrText.take 200 ++ "..." }, 1⟩ := by
    simp [performCustomGrading, hai, hlen]
  refine ⟨_, by rw [hpcg], ?_, rfl, by rw [hpcg]⟩
  by_cases hsc : a.score > 60
  · simp [hsc]
  · have hle : a.score ≤ 60 := le_of_not_lt hsc
    have hbound : jsRound (a.score * (2/5)) ≤ 40 := by
      unfold jsRound
      calc ⌊a.score * (2/5) + 1/2⌋ ≤ ⌊(49:ℚ)/2⌋ := Int.floor_le_floor (by linarith)
        _ ≤ 40 := by norm_num
    simp only [hsc, if_false]
    exact (min_eq_right hbound).symm

/-- Witness for C8: the formula evaluated through the theorem on the
concrete workspace and an AI score of 85. -/
theorem completeness_subscore_pure_witness :
    ∃ gr : GradingResults,
      (performCustomGrading envW "/w" "grade" "module-02").out = .ok gr ∧
      gr.completeness.score =
        (if (85:ℚ) > 60 then (40 : ℤ) else min 40 (jsRound ((85:ℚ) * (2/5)))) ∧
      gr.completeness.maxScore = 40 ∧
      (performCustomGrading envW "/w" "grade" "module-02").scoringCalls = 1 :=
  completeness_subscore_pure envW "/w" "grade" "module-02"
    ⟨85, "good work", ["p1"], []⟩ rfl (by decide)

/-- C10: a cache-hit whose stored reviewContent is not valid JSON makes
grade() fail with a 500 (success: false) instead of returning the stored
record, with no state change and no external effects. -/
theorem corrupt_cached_content_fails (env : Env) (req : Req) (st : St)
    {repo branch : String} {r : Review}
    (hrepo : validStr req.repoName = some repo)
    (hbranch : validStr req.branchName = some branch)
    (hhit : findLatest st.store repo branch (validStr req.studentName) = some r)
    (hbad : r.reviewContent = none) :
    gradeSubmission env req st = ⟨.serverError jsonParseErrorMessage, st, noEff⟩ :=
  gradeSubmission_parse_fail env req st hrepo hbranch hhit hbad

/-- Witness for C10: the corrupt stored record makes the concrete call
answer 500. -/
theorem corrupt_cached_content_fails_witness :
    gradeSubmission envW reqW stBad = ⟨.serverError jsonParseErrorMessage, stBad, noEff⟩ :=
  @corrupt_cached_content_fails envW reqW stBad "https://github.com/org/repo" "module-02"
    badRecW rfl rfl (by decide) rfl

/-- C7: on a cache miss, when the scan of the acquired workspace selects
zero files, grade() fails with the empty-corpus 500 error, inserts no record
into the store, makes no scoring call, and the workspace is still removed
(cleanup is attempted, and when it succeeds the path is no longer live). -/
theorem empty_corpus_failure (env : Env) (req : Req) (st : St)
    {repo branch : String}
    (hrepo : validStr req.repoName = some repo)
    (hbranch : validStr req.branchName = some branch)
    (hmiss : findLatest st.store repo branch (validStr req.studentName) = none)
    (hinstr : validInstructions req.customInstructions = true)
    (hurl : isValidGitHubUrl repo = true)
    (hclone : env.cloneOk = true)
    (hempty : findCodeFiles
        (mkWorkspacePath ((validStr req.studentName).getD "submission") st.tick)
        env.tree = []) :
    (gradeSubmission env req st).resp =
      .serverError "No code files found in the repository" ∧
    (gradeSubmission env req st).st.store = st.store ∧
    (gradeSubmission env req st).eff.scoringCalls = 0 ∧
    (gradeSubmission env req st).eff.storeWrites = 0 ∧
    (gradeSubmission env req st).eff.cleanupAttempts =
      [mkWorkspacePath ((validStr req.studentName).getD "submission") st.tick] ∧
    (env.cleanupOk = true →
      mkWorkspacePath ((validStr req.studentName).getD "submission") st.tick ∉
        (gradeSubmission env req st).st.liveWorkspaces) := by
  have heq : gradeSubmission env req st =
      runCleanup env
        (some (mkWorkspacePath ((validStr req.studentName).getD "submission") st.tick))
        (.serverError "No code files found in the repository")
        { st with liveWorkspaces := st.liveWorkspaces ++
            [mkWorkspacePath ((validStr req.studentName).getD "submission") st.tick] }
        { cloneCalls := [(validStr req.studentName).getD "submission"]
          scoringCalls := 0
          storeWrites := 0
          workspacesCreated :=
            [mkWorkspacePath ((validStr req.studentName).getD "submission") st.tick]
          cleanupAttempts := [] } := by
    simp only [gradeSubmission, hrepo, hbranch, hmiss, hinstr, hurl, hclone,
      performCustomGrading, hempty, Bool.not_true, Bool.false_eq_true, if_false,
      List.length_nil, if_pos]
  refine ⟨?_, ?_, ?_, ?_, ?_, ?_⟩
  · rw [heq, runCleanup_resp]
  · rw [heq, runCleanup_store]
  · rw [heq, runCleanup_eff]
  · rw [heq, runCleanup_eff]
  · rw [heq, runCleanup_eff]
    simp [Option.toList]
  · intro hcl
    rw [heq]
    simp [runCleanup, hcl, List.mem_filter]

/-- Witness for C7: a workspace holding only a Markdown file produces the
empty-corpus failure with the workspace removed. -/
theorem empty_corpus_failure_witness :
    (gradeSubmission envEmptyW reqW stW).resp =
      .serverError "No code files found in the repository" ∧
    (gradeSubmission envEmptyW reqW stW).st.store = stW.store ∧
    (gradeSubmission envEmptyW reqW stW).eff.scoringCalls = 0 ∧
    (gradeSubmission envEmptyW reqW stW).eff.storeWrites = 0 ∧
    (gradeSubmission envEmptyW reqW stW).eff.cleanupAttempts =
      [mkWorkspacePath ((validStr reqW.studentName).getD "submission") stW.tick] ∧
    (envEmptyW.cleanupOk = true →
      mkWorkspacePath ((validStr reqW.studentName).getD "submission") stW.tick ∉
        (gradeSubmission envEmptyW reqW stW).st.liveWorkspaces) :=
  @empty_corpus_failure envEmptyW reqW stW "https://github.com/org/repo" "module-02"
    rfl rfl rfl (by decide) (by decide) rfl (by decide)

/-- C1: for every key with an existing record, grade() returns the most
recent stored record's content unchanged tagged as coming from the database,
with no clone, no workspace, no scan, no scoring call and no store write;
consequently a second grade() call after a first successful miss-path call
returns the first call's results with zero additional scoring calls. -/
theorem cache_hit_idempotence :
    (∀ (env : Env) (req : Req) (st : St) (repo branch : String) (r : Review)
        (c : ReviewContent),
      validStr req.repoName = some repo →
      validStr req.branchName = some branch →
      findLatest st.store repo branch (validStr req.studentName) = some r →
      r.reviewContent = some c →
      gradeSubmission env req st =
        ⟨.cacheHit (r.studentName.getD "Unknown") r.branchName r.repoName
           c.results c.summary r.id r.createdAt, st, noEff⟩ ∧
      r ∈ st.store ∧ matchesKey repo branch (validStr req.studentName) r = true ∧
      ∀ x ∈ st.store, matchesKey repo branch (validStr req.studentName) x = true →
        x.createdAt ≤ r.createdAt) ∧
    (∀ (env env2 : Env) (req req2 : Req) (st : St) (repo branch : String)
        (gr : GradingResults),
      validStr req.repoName = some repo →
      validStr req.branchName = some branch →
      findLatest st.store repo branch (validStr req.studentName) = none →
      validInstructions req.customInstructions = true →
      isValidGitHubUrl repo = true →
      env.cloneOk = true →
      (performCustomGrading env
          (mkWorkspacePath ((validStr req.studentName).getD "submission") st.tick)
          (req.customInstructions.getD "") branch).out = .ok gr →
      env.dbWriteOk = true →
      validStr req2.repoName = some repo →
      validStr req2.branchName = some branch →
      validStr req2.studentName = validStr req.studentName →
      (gradeSubmission env req st).resp =
        .freshOk ((validStr req.studentName).getD "Unknown") branch repo gr
          (mkSummary gr) st.nextId st.tick ∧
      gradeSubmission env2 req2 (gradeSubmission env req st).st =
        ⟨.cacheHit ((validStr req.studentName).getD "Unknown") branch repo gr
           (mkSummary gr) st.nextId st.tick,
         (gradeSubmission env req st).st, noEff⟩) := by
  constructor
  · intro env req st repo branch r c hrepo hbranch hhit hc
    obtain ⟨hk, hmem, hmax⟩ := findLatest_spec hhit
    exact ⟨gradeSubmission_hit env req st hrepo hbranch hhit hc, hmem, hk, hmax⟩
  · intro env env2 req req2 st repo branch gr hrepo hbranch hmiss hinstr hurl
      hclone hpcg hdb hr2 hb2 hs2
    have h1 := gradeSubmission_miss_success env req st hrepo hbranch hmiss hinstr
      hurl hclone hpcg hdb
    have hstore : (gradeSubmission env req st).st.store =
        mkSavedReview repo branch (validStr req.studentName) gr st.nextId st.tick
          :: st.store := by
      rw [h1, runCleanup_store]
    refine ⟨by rw [h1, runCleanup_resp], ?_⟩
    have hhit2 : findLatest (gradeSubmission env req st).st.store repo branch
        (validStr req2.studentName) =
        some (mkSavedReview repo branch (validStr req.studentName) gr
          st.nextId st.tick) := by
      rw [hstore, hs2]
      exact findLatest_cons_self hmiss (by simp [matchesKey, mkSavedReview])
    have h2 := gradeSubmission_hit env2 req2 (gradeSubmission env req st).st
      hr2 hb2 hhit2 rfl
    rw [h2]
    simp [mkSavedReview]

/-- Witness for C1: the concrete miss-then-hit pair of calls through the
theorem. -/
theorem cache_hit_idempotence_witness :
    (gradeSubmission envW reqW stW).resp =
      .freshOk ((validStr reqW.studentName).getD "Unknown") "module-02"
        "https://github.com/org/repo" grW (mkSummary grW) stW.nextId stW.tick ∧
    gradeSubmission envW reqW (gradeSubmission envW reqW stW).st =
      ⟨.cacheHit ((validStr reqW.studentName).getD "Unknown") "module-02"
         "https://github.com/org/repo" grW (mkSummary grW) stW.nextId stW.tick,
       (gradeSubmission envW reqW stW).st, noEff⟩ :=
  cache_hit_idempotence.2 envW envW reqW reqW stW "https://github.com/org/repo"
    "module-02" grW rfl rfl rfl (by decide) (by decide) rfl rfl rfl rfl rfl rfl

/-- C3: the instructions field is never part of the cache key — after a
first successful miss-path call, a second call with the same key is a cache
hit returning the first call's stored result for every value of
customInstructions on the second request, including its absence, with zero
scoring calls. -/
theorem instructions_not_in_cache_key
    (env env2 : Env) (req : Req) (st : St) (i : Option String)
    {repo branch : String} {gr : GradingResults}
    (hrepo : validStr req.repoName = some repo)
    (hbranch : validStr req.branchName = some branch)
    (hmiss : findLatest st.store repo branch (validStr req.studentName) = none)
    (hinstr : validInstructions req.customInstructions = true)
    (hurl : isValidGitHubUrl repo = true)
    (hclone : env.cloneOk = true)
    (hpcg : (performCustomGrading env
        (mkWorkspacePath ((validStr req.studentName).getD "submission") st.tick)
        (req.customInstructions.getD "") branch).out = .ok gr)
    (hdb : env.dbWriteOk = true) :
    gradeSubmission env2 { req with customInstructions := i }
        (gradeSubmission env req st).st =
      ⟨.cacheHit ((validStr req.studentName).getD "Unknown") branch repo gr
         (mkSummary gr) st.nextId st.tick,
       (gradeSubmission env req st).st, noEff⟩ ∧
    (gradeSubmission env2 { req with customInstructions := i }
        (gradeSubmission env req st).st).eff.scoringCalls = 0 ∧
    (gradeSubmission env2 { req with customInstructions := i }
        (gradeSubmission env req st).st).eff.cloneCalls = [] := by
  have h1 := gradeSubmission_miss_success env req st hrepo hbranch hmiss hinstr
    hurl hclone hpcg hdb
  have hstore : (gradeSubmission env req st).st.store =
      mkSavedReview repo branch (validStr req.studentName) gr st.nextId st.tick
        :: st.store := by
    rw [h1, runCleanup_store]
  have hhit2 : findLatest (gradeSubmission env req st).st.store repo branch
      (validStr ({ req with customInstructions := i } : Req).studentName) =
      some (mkSavedReview repo branch (validStr req.studentName) gr
        st.nextId st.tick) := by
    rw [hstore]
    exact findLatest_cons_self hmiss (by simp [matchesKey, mkSavedReview])
  have h2 := gradeSubmission_hit env2 { req with customInstructions := i }
    (gradeSubmission env req st).st hrepo hbranch hhit2 rfl
  rw [h2]
  refine ⟨by simp [mkSavedReview], rfl, rfl⟩

/-- Witness for C3: the second call with absent instructions still hits the
cache on the concrete run. -/
theorem instructions_not_in_cache_key_witness :
    gradeSubmission envW { reqW with customInstructions := none }
        (gradeSubmission envW reqW stW).st =
      ⟨.cacheHit ((validStr reqW.studentName).getD "Unknown") "module-02"
         "https://github.com/org/repo" grW (mkSummary grW) stW.nextId stW.tick,
       (gradeSubmission envW reqW stW).st, noEff⟩ ∧
    (gradeSubmission envW { reqW with customInstructions := none }
        (gradeSubmission envW reqW stW).st).eff.scoringCalls = 0 ∧
    (gradeSubmission envW { reqW with customInstructions := none }
        (gradeSubmission envW reqW stW).st).eff.cloneCalls = [] :=
  @instructions_not_in_cache_key envW envW reqW stW none
    "https://github.com/org/repo" "module-02" grW
    rfl rfl rfl (by decide) (by decide) rfl rfl rfl

/-- C9: a falsy studentIdentifier (empty string, or absent) is normalized to
null in the cache-lookup key and the persisted record — such a request is
outcome-for-outcome identical to the same request with the field absent —
and on the miss path the clone receives the fixed submitter placeholder
"submission"; a persisted record from such a call carries studentName null. -/
theorem student_identifier_normalization (env : Env) (req : Req) (st : St)
    (hstu : req.studentName = some "" ∨ req.studentName = none) :
    gradeSubmission env req st =
      gradeSubmission env { req with studentName := none } st ∧
    (∀ repo branch,
      validStr req.repoName = some repo →
      validStr req.branchName = some branch →
      findLatest st.store repo branch none = none →
      validInstructions req.customInstructions = true →
      isValidGitHubUrl repo = true →
      (gradeSubmission env req st).eff.cloneCalls = ["submission"]) ∧
    (∀ repo branch gr,
      validStr req.repoName = some repo →
      validStr req.branchName = some branch →
      findLatest st.store repo branch none = none →
      validInstructions req.customInstructions = true →
      isValidGitHubUrl repo = true →
      env.cloneOk = true →
      (performCustomGrading env (mkWorkspacePath "submission" st.tick)
          (req.customInstructions.getD "") branch).out = .ok gr →
      env.dbWriteOk = true →
      (gradeSubmission env req st).st.store.head? =
        some (mkSavedReview repo branch none gr st.nextId st.tick)) := by
  have hnone : validStr req.studentName = none := by
    rcases hstu with h | h <;> simp [h, validStr]
  have hvnone : validStr none = none := rfl
  refine ⟨?_, ?_, ?_⟩
  · simp only [gradeSubmission, hnone, hvnone]
  · intro repo branch hrepo hbranch hmiss hinstr hurl
    have hgd : (none : Option String).getD "submission" = "submission" := rfl
    simp only [gradeSubmission, hrepo, hbranch, hnone, hmiss, hinstr, hurl,
      Bool.not_true, Bool.false_eq_true, if_false, hgd]
    cases hclone : env.cloneOk with
    | false => simp [runCleanup]
    | true =>
        simp only [Bool.not_true, Bool.false_eq_true, if_false]
        cases hout : (performCustomGrading env (mkWorkspacePath "submission" st.tick)
            (req.customInstructions.getD "") branch).out with
        | error msg => simp [runCleanup_eff]
        | ok gr =>
            cases hdb : env.dbWriteOk with
            | false => simp [runCleanup_eff]
            | true => simp [runCleanup_eff]
  · intro repo branch gr hrepo hbranch hmiss hinstr hurl hclone hpcg hdb
    have h1 := gradeSubmission_miss_success env req st hrepo hbranch
      (by rw [hnone]; exact hmiss) hinstr hurl hclone (by rw [hnone]; exact hpcg) hdb
    have hstore : (gradeSubmission env req st).st.store =
        mkSavedReview repo branch (validStr req.studentName) gr st.nextId st.tick
          :: st.store := by
      rw [h1, runCleanup_store]
    rw [hstore, hnone]
    rfl

/-- Witness for C9: an empty-string studentName behaves exactly as an absent
one and the clone is labelled with the placeholder. -/
theorem student_identifier_normalization_witness :
    gradeSubmission envW reqEmptyStu stW =
      gradeSubmission envW { reqEmptyStu with studentName := none } stW ∧
    (gradeSubmission envW reqEmptyStu stW).eff.cloneCalls = ["submission"] :=
  ⟨(student_identifier_normalization envW reqEmptyStu stW (Or.inl rfl)).1,
   (student_identifier_normalization envW reqEmptyStu stW (Or.inl rfl)).2.1
     "https://github.com/org/repo" "module-02" rfl rfl rfl (by decide) (by decide)⟩

/-- C2: whenever a workspace was created (the clone succeeded), its release
is attempted on every exit path and, when the release succeeds, the path is
gone after the call; when no workspace was created, no release is attempted;
and a release failure never changes the primary response or the observable
effects. -/
theorem workspace_release_guarantee (env : Env) (req : Req) (st : St) (b c : Bool) :
    ((gradeSubmission env req st).eff.cleanupAttempts
       = (gradeSubmission env req st).eff.workspacesCreated) ∧
    (env.cleanupOk = true →
      ∀ p ∈ (gradeSubmission env req st).eff.workspacesCreated,
        p ∉ (gradeSubmission env req st).st.liveWorkspaces) ∧
    ((gradeSubmission { env with cleanupOk := b } req st).resp
       = (gradeSubmission { env with cleanupOk := c } req st).resp) ∧
    ((gradeSubmission { env with cleanupOk := b } req st).eff
       = (gradeSubmission { env with cleanupOk := c } req st).eff) := by
  obtain ⟨cp, resp, st1, eff, heq, hw, ha⟩ := gradeSubmission_shape env req st
  refine ⟨?_, ?_, ?_, ?_⟩
  · rw [heq, runCleanup_eff]
    simp [ha, hw]
  · intro hcl p hp
    rw [heq, runCleanup_eff] at hp
    simp only [hw] at hp
    rw [heq]
    cases cp with
    | none => simp [Option.toList] at hp
    | some q =>
        simp [Option.toList] at hp
        subst hp
        simp [runCleanup, hcl, List.mem_filter]
  · exact ((gradeSubmission_cleanupOk_irrelevant env req st b).1).trans
      ((gradeSubmission_cleanupOk_irrelevant env req st c).1).symm
  · exact ((gradeSubmission_cleanupOk_irrelevant env req st b).2).trans
      ((gradeSubmission_cleanupOk_irrelevant env req st c).2).symm

/-- Witness for C2: on the concrete successful run the created workspace is
not live after the call. -/
theorem workspace_release_guarantee_witness :
    "/tmp/grading-workspaces/alice-0" ∉
      (gradeSubmission envW reqW stW).st.liveWorkspaces :=
  (workspace_release_guarantee envW reqW stW true true).2.1 rfl
    "/tmp/grading-workspaces/alice-0" (by decide)

/-- C4: grade() answers 400 (ValidationError, success: false), with no state
change and no side effect, exactly when repoName or branchName is
missing/non-string/empty or — on a cache miss — instructions are
absent/blank or repoName fails the GitHub-URL shape check; over stores whose
records only hold valid repository URLs (an invariant the pipeline itself
preserves), every request with a malformed repoName fails with 400. -/
theorem validation_error_characterization (env : Env) (req : Req) (st : St) :
    (isBadRequest (gradeSubmission env req st).resp = true ↔ validationCond req st) ∧
    (validationCond req st →
      (gradeSubmission env req st).st = st ∧ (gradeSubmission env req st).eff = noEff) ∧
    ((∀ r ∈ st.store, isValidGitHubUrl r.repoName = true) →
      ∀ s, req.repoName = some s → isValidGitHubUrl s = false →
        isBadRequest (gradeSubmission env req st).resp = true) ∧
    ((∀ r ∈ st.store, isValidGitHubUrl r.repoName = true) →
      ∀ r ∈ (gradeSubmission env req st).st.store, isValidGitHubUrl r.repoName = true) := by
  refine ⟨?_, ?_, ?_, ?_⟩
  · cases hrepo : validStr req.repoName with
    | none => simp [gradeSubmission, hrepo, runCleanup, isBadRequest, validationCond]
    | some repo =>
        cases hbranch : validStr req.branchName with
        | none =>
            simp [gradeSubmission, hrepo, hbranch, runCleanup, isBadRequest,
              validationCond]
        | some branch =>
            cases hfind : findLatest st.store repo branch (validStr req.studentName) with
            | some r =>
                cases hc : r.reviewContent with
                | none =>
                    simp [gradeSubmission, hrepo, hbranch, hfind, hc, runCleanup,
                      isBadRequest, validationCond]
                | some pc =>
                    simp [gradeSubmission, hrepo, hbranch, hfind, hc, runCleanup,
                      isBadRequest, validationCond]
            | none =>
                by_cases hinstr : validInstructions req.customInstructions = true
                · by_cases hurl : isValidGitHubUrl repo = true
                  · have hcond : ¬ validationCond req st := by
                      simp [validationCond, hrepo, hbranch, hfind, hinstr, hurl]
                    simp only [hcond, iff_false]
                    unfold gradeSubmission
                    simp only [hrepo, hbranch, hfind, hinstr, hurl, Bool.not_true,
                      Bool.false_eq_true, if_false]
                    cases hclone : env.cloneOk with
                    | false => simp [runCleanup, isBadRequest]
                    | true =>
                        simp only [Bool.not_true, Bool.false_eq_true, if_false]
                        cases hout : (performCustomGrading env
                            (mkWorkspacePath
                              ((validStr req.studentName).getD "submission") st.tick)
                            (req.customInstructions.getD "") branch).out with
                        | error msg => simp [runCleanup_resp, isBadRequest]
                        | ok gr =>
                            cases hdb : env.dbWriteOk with
                            | false => simp [runCleanup_resp, isBadRequest]
                            | true => simp [runCleanup_resp, isBadRequest]
                  · simp [gradeSubmission, hrepo, hbranch, hfind, hinstr, hurl,
                      runCleanup, isBadRequest, validationCond,
                      Bool.not_eq_true (isValidGitHubUrl repo)]
                · simp [gradeSubmission, hrepo, hbranch, hfind, hinstr, runCleanup,
                    isBadRequest, validationCond,
                    Bool.not_eq_true (validInstructions req.customInstructions)]
  · intro hcond
    cases hrepo : validStr req.repoName with
    | none => simp [gradeSubmission, hrepo, runCleanup, noEff]
    | some repo =>
        cases hbranch : validStr req.branchName with
        | none => simp [gradeSubmission, hrepo, hbranch, runCleanup, noEff]
        | some branch =>
            cases hfind : findLatest st.store repo branch (validStr req.studentName) with
            | some r =>
                cases hc : r.reviewContent with
                | none => simp [gradeSubmission, hrepo, hbranch, hfind, hc, runCleanup]
                | some pc =>
                    simp [gradeSubmission, hrepo, hbranch, hfind, hc, runCleanup]
            | none =>
                by_cases hinstr : validInstructions req.customInstructions = true
                · by_cases hurl : isValidGitHubUrl repo = true
                  · exfalso
                    revert hcond
                    simp [validationCond, hrepo, hbranch, hfind, hinstr, hurl]
                  · simp [gradeSubmission, hrepo, hbranch, hfind, hinstr, hurl,
                      runCleanup, Bool.not_eq_true (isValidGitHubUrl repo)]
                · simp [gradeSubmission, hrepo, hbranch, hfind, hinstr, runCleanup,
                    Bool.not_eq_true (validInstructions req.customInstructions)]
  · intro hinv s hs hbad
    by_cases hse : s = ""
    · have hrepo : validStr req.repoName = none := by simp [validStr, hs, hse]
      simp [gradeSubmission, hrepo, runCleanup, isBadRequest]
    · have hrepo : validStr req.repoName = some s := by simp [validStr, hs, hse]
      cases hbranch : validStr req.branchName with
      | none => simp [gradeSubmission, hrepo, hbranch, runCleanup, isBadRequest]
      | some branch =>
          cases hfind : findLatest st.store s branch (validStr req.studentName) with
          | some r =>
              exfalso
              obtain ⟨hk, hmem, -⟩ := findLatest_spec hfind
              have hrs : r.repoName = s := by
                simp [matchesKey] at hk
                exact hk.1.1
              have := hinv r hmem
              rw [hrs, hbad] at this
              exact Bool.false_ne_true this
          | none =>
              by_cases hinstr : validInstructions req.customInstructions = true
              · simp [gradeSubmission, hrepo, hbranch, hfind, hinstr, hbad,
                  runCleanup, isBadRequest]
              · simp [gradeSubmission, hrepo, hbranch, hfind, runCleanup, isBadRequest,
                  Bool.not_eq_true (validInstructions req.customInstructions), hinstr]
  · intro hinv
    cases hrepo : validStr req.repoName with
    | none => simpa [gradeSubmission, hrepo, runCleanup] using hinv
    | some repo =>
        cases hbranch : validStr req.branchName with
        | none => simpa [gradeSubmission, hrepo, hbranch, runCleanup] using hinv
        | some branch =>
            cases hfind : findLatest st.store repo branch (validStr req.studentName) with
            | some r =>
                cases hc : r.reviewContent with
                | none =>
                    simpa [gradeSubmission, hrepo, hbranch, hfind, hc, runCleanup]
                      using hinv
                | some pc =>
                    simpa [gradeSubmission, hrepo, hbranch, hfind, hc, runCleanup]
                      using hinv
            | none =>
                by_cases hinstr : validInstructions req.customInstructions = true
                · by_cases hurl : isValidGitHubUrl repo = true
                  · unfold gradeSubmission
                    simp only [hrepo, hbranch, hfind, hinstr, hurl, Bool.not_true,
                      Bool.false_eq_true, if_false]
                    cases hclone : env.cloneOk with
                    | false => simpa [runCleanup] using hinv
                    | true =>
                        simp only [Bool.not_true, Bool.false_eq_true, if_false]
                        cases hout : (performCustomGrading env
                            (mkWorkspacePath
                              ((validStr req.studentName).getD "submission") st.tick)
                            (req.customInstructions.getD "") branch).out with
                        | error msg =>
                            intro r hr
                            simp [runCleanup_store] at hr
                            exact hinv r hr
                        | ok gr =>
                            cases hdb : env.dbWriteOk with
                            | false =>
                                intro r hr
                                simp [runCleanup_store] at hr
                                exact hinv r hr
                            | true =>
                                intro r hr
                                simp [runCleanup_store, List.mem_cons] at hr
                                rcases hr with hr1 | hr2
                                · rw [hr1]
                                  simpa [mkSavedReview] using hurl
                                · exact hinv r hr2
                  · simpa [gradeSubmission, hrepo, hbranch, hfind, hinstr, hurl,
                      runCleanup, Bool.not_eq_true (isValidGitHubUrl repo)] using hinv
                · simpa [gradeSubmission, hrepo, hbranch, hfind, runCleanup, hinstr,
                    Bool.not_eq_true (validInstructions req.customInstructions)]
                    using hinv

/-- Witness for C4: the malformed repository reference "not-a-url" is
rejected with a 400 on the concrete request, via both the characterization
and the malformed-reference conjunct. -/
theorem validation_error_characterization_witness :
    isBadRequest (gradeSubmission envW { reqW with repoName := some "not-a-url" } stW).resp
      = true :=
  (validation_error_characterization envW { reqW with repoName := some "not-a-url" } stW).2.2.1
    (by intro r hr; exact absurd hr (List.not_mem_nil r)) "not-a-url" rfl (by decide)

end Grading
